import Mathlib

/-!
Shallow embedding of `hyperspy/component.py` (the `Parameter` and `Component`
classes) and of `hyperspy/_samfire_utils/_segmenters/histogram.py`
(`Histogram_segmenter`), together with theorems settling the claims about them.

Modelling conventions:
* Python numbers are rationals (`ℚ`); a stored value is either a scalar or a
  tuple of rationals (`PyVal`).
* Observer callbacks are identified by natural numbers; which callbacks raise
  when invoked is a parameter `raises : ℕ → Bool` of the semantics.
* Each parameter's `twin_function` / `twin_inverse_function` are user-supplied
  Python functions; they enter the semantics as parameters `tf : ℕ → ℚ → ℚ`
  (applied elementwise to tuples) and `tinv : ℕ → Option (ℚ → ℚ)` (`none`
  models `twin_inverse_function = None`).
* In the source, `connected_functions = list()` and `_twins = []` are
  class-level attributes of `Parameter`: the methods only ever mutate these two
  list objects in place and never rebind the attribute, so every instance
  resolves them to the same two lists.  The embedding therefore keeps a single
  `connected_functions` list and a single `_twins` list in the `World`, shared
  by all parameters, exactly as the source does.
* All parameters of a `World` are owned by one `Component` (so
  `self.component is not None` and `_update_free_parameters` runs after every
  `free`/`twin` mutation, as in `Component.init_parameters`).
* Unbounded recursion in the source (value reads through twin cycles) is
  modelled with fuel: a result of `none` means the Python call never returns.
-/

namespace Hyperspy

/-- A Python value stored in `Parameter.__value`: a numeric scalar or a tuple
of numbers (multi-element parameters store tuples). -/
inductive PyVal where
  | num (q : ℚ)
  | tup (l : List ℚ)
deriving DecidableEq, Repr

/-- An argument passed to the `value` property setter: a bare number, or any
sequence exposing `__len__` (list, tuple, array), carrying its elements. -/
inductive PyInput where
  | scalar (q : ℚ)
  | seq (l : List ℚ)
deriving DecidableEq, Repr

/-- The per-instance attributes of one `Parameter` object.  `value` is the raw
`__value` slot, `free` the raw `__free` flag (the `free` property getter is
`isfreeAt` below), `twin` the `__twin` reference as an index into the owning
world's parameter list, `bmin`/`bmax` the `_bounds` (uniform across elements,
`none` = unbounded). -/
structure Parameter where
  number_of_elements : ℕ := 1
  value : PyVal := .num 0
  std : Option PyVal := none
  bmin : Option ℚ := none
  bmax : Option ℚ := none
  ext_bounded : Bool := false
  ext_force_positive : Bool := false
  free : Bool := true
  twin : Option ℕ := none
deriving DecidableEq, Repr

/-- The state of one `Component` together with the class-level lists of
`Parameter`.  `params` is `Component.parameters` in declaration order;
`connected_functions` and `_twins` are the two class-level list objects shared
by every `Parameter` instance; `free_parameters` is the derived set (kept as
the canonical ascending list of indices: only its membership is meaningful,
the Python set's iteration order is unspecified); `nfree_param` is
`_nfree_param`. -/
structure World where
  params : List Parameter
  connected_functions : List ℕ := []
  _twins : List ℕ := []
  free_parameters : List ℕ := []
  nfree_param : ℕ := 0
deriving DecidableEq, Repr

/-- Numpy `np.abs` applied to a scalar or elementwise to a sequence. -/
def absPy : PyVal → PyVal
  | .num q => .num |q|
  | .tup l => .tup (l.map (fun x => |x|))

/-- Numpy `np.clip(x, lo, hi)` for one element, with `none` standing for an infinite
bound: first the lower bound is applied, then the upper one. -/
def clipOpt (lo hi : Option ℚ) (x : ℚ) : ℚ :=
  let y := match lo with
    | none => x
    | some l => max x l
  match hi with
  | none => y
  | some h => min y h

/-- The single-element bound test of `_setvalue`: `bmin` wins when
`arg <= bmin`, else `bmax` when `arg >= bmax`, else the value passes through
(`some` = the bound the value is replaced by). -/
def singleClipTarget (bmin bmax : Option ℚ) (q : ℚ) : Option ℚ :=
  match bmin with
  | some l =>
    if q ≤ l then some l
    else
      match bmax with
      | some h => if h ≤ q then some h else none
      | none => none
  | none =>
    match bmax with
    | some h => if h ≤ q then some h else none
    | none => none

/-- The `ext_bounded is True` branch of `Parameter._setvalue`: optionally
`np.abs`, then the single-element chained comparisons or the multi-element
`np.clip`.  Two faithful oddities of the source: (a) on the multi-element
path the upper clip limit is `np.inf` whenever `self.bmin is None`, because
the source tests `self.bmin` (not `self.bmax`) when choosing it; (b) on the
single-element path with a length-1 sequence argument, `np.abs` turns the
tuple into a one-element ndarray whose scalar comparisons reduce to comparing
its single element, while without `ext_force_positive` the tuple is compared
directly and Python 2 orders every number below every tuple, making
`arg <= bmin` False and `arg >= bmax` True whenever the bound is present. -/
def boundedValue (p : Parameter) (arg : PyVal) : PyVal :=
  let arg' := if p.ext_force_positive then absPy arg else arg
  if p.number_of_elements = 1 then
    match arg' with
    | .num q =>
      match singleClipTarget p.bmin p.bmax q with
      | some t => .num t
      | none => .num q
    | .tup l =>
      if p.ext_force_positive then
        match singleClipTarget p.bmin p.bmax (l.getD 0 0) with
        | some t => .num t
        | none => .tup l
      else
        match p.bmax with
        | some h => .num h
        | none => .tup l
  else
    let lo := p.bmin
    let hi := if p.bmin.isSome then p.bmax else none
    match arg' with
    | .num q => .num (clipOpt lo hi q)
    | .tup l => .tup (l.map (clipOpt lo hi))

/-- The observer fan-out at the end of `_setvalue`:

    for f in self.connected_functions:
        try: f()
        except: self.disconnect(f)

The notifying parameter is untwinned at this point (`_setvalue` returned
earlier otherwise), so `disconnect` just removes `f` from the shared
`connected_functions` list.  Python's list iterator advances a position index
while `remove` shifts the remaining entries left, so the entry immediately
after a removed one is never yielded.  Returns the final list and the
callbacks that were invoked, in invocation order.  The fuel only needs to
cover the iteration (`conn.length` from position 0 suffices, since the list
never grows). -/
def notifyLoop (raises : ℕ → Bool) : ℕ → ℕ → List ℕ → List ℕ → List ℕ × List ℕ
  | 0, _, conn, called => (conn, called)
  | fuel + 1, idx, conn, called =>
    match conn.get? idx with
    | none => (conn, called)
    | some f =>
      if raises f then notifyLoop raises fuel (idx + 1) (conn.erase f) (called ++ [f])
      else notifyLoop raises fuel (idx + 1) conn (called ++ [f])

/-- The untwinned tail of `_setvalue`, after the length check and the twin
dispatch: store the (possibly absolute-valued / clipped) value into `__value`
and, when the stored value changed, run the observer fan-out.  `argT` is the
argument already converted to a tuple when it was a sequence.  Returns the
updated world and the callbacks invoked. -/
def storeUntwinned (raises : ℕ → Bool) (w : World) (i : ℕ) (p : Parameter)
    (argT : PyVal) : World × List ℕ :=
  let old := p.value
  let newv := if p.ext_bounded = false then argT else boundedValue p argT
  let w1 := { w with params := w.params.set i { p with value := newv } }
  if newv ≠ old then
    let r := notifyLoop raises w1.connected_functions.length 0 w1.connected_functions []
    ({ w1 with connected_functions := r.1 }, r.2)
  else (w1, [])

/-- Outcome of an assignment to the `value` property: the `ValueError` of the
length check propagates to the caller with every attribute untouched
(`raised` carries the unchanged world), or the assignment completes,
returning the updated world and the observers invoked. -/
inductive SetOutcome where
  | raised (w : World)
  | stored (w : World) (called : List ℕ)
deriving DecidableEq, Repr

/-- Method `Parameter._setvalue` for the parameter at index `i`, with fuel for the
recursive write through twin links.  In source order: the length check
(a sequence must carry exactly `_number_of_elements` entries, a bare number
needs `_number_of_elements == 1`; sequences are converted to tuples); then,
if twinned, the write is forwarded to the twin through
`twin_inverse_function` — a no-op returning immediately when that function is
`None` — and otherwise the untwinned store-and-notify tail runs. -/
def setvalueW (tinv : ℕ → Option (ℚ → ℚ)) (raises : ℕ → Bool) :
    ℕ → World → ℕ → PyInput → Option SetOutcome
  | 0, _, _, _ => none
  | fuel + 1, w, i, arg =>
    match w.params.get? i with
    | none => none
    | some p =>
      match arg with
      | .seq l =>
        if l.length ≠ p.number_of_elements then some (.raised w)
        else
          match p.twin with
          | some j =>
            match tinv i with
            | none => some (.stored w [])
            | some g => setvalueW tinv raises fuel w j (.seq (l.map g))
          | none => some (.stored (storeUntwinned raises w i p (.tup l)).1
              (storeUntwinned raises w i p (.tup l)).2)
      | .scalar q =>
        if p.number_of_elements ≠ 1 then some (.raised w)
        else
          match p.twin with
          | some j =>
            match tinv i with
            | none => some (.stored w [])
            | some g => setvalueW tinv raises fuel w j (.scalar (g q))
          | none => some (.stored (storeUntwinned raises w i p (.num q)).1
              (storeUntwinned raises w i p (.num q)).2)

/-- Apply a twin function to a stored value (elementwise on tuples). -/
def applyF (f : ℚ → ℚ) : PyVal → PyVal
  | .num q => .num (f q)
  | .tup l => .tup (l.map f)

/-- Method `Parameter._getvalue` (the `value` property getter) for the parameter at
index `i`: an untwinned parameter returns its `__value`, a twinned one
returns `twin_function(twin.value)`.  The recursion follows the twin chain;
exhausted fuel (`none`) models the unbounded recursion a twin cycle causes. -/
def getvalueW (tf : ℕ → ℚ → ℚ) (w : World) : ℕ → ℕ → Option PyVal
  | 0, _ => none
  | fuel + 1, i =>
    match w.params.get? i with
    | none => none
    | some p =>
      match p.twin with
      | none => some p.value
      | some j => (getvalueW tf w fuel j).map (applyF (tf i))

/-- Method `Parameter.connect`: append `f` to the shared `connected_functions` list
unless already present, then propagate onto the twin.  (Because the list is
shared, the recursive call always finds `f` present and stops.) -/
def connectW (w : World) (i f : ℕ) : ℕ → Option World
  | 0 => none
  | fuel + 1 =>
    match w.params.get? i with
    | none => none
    | some p =>
      if f ∈ w.connected_functions then some w
      else
        let w' := { w with connected_functions := w.connected_functions ++ [f] }
        match p.twin with
        | none => some w'
        | some j => connectW w' j f fuel

/-- Method `Parameter.disconnect`: remove the first occurrence of `f` from the shared
`connected_functions` list when present, then propagate onto the twin.
(Because the list is shared, the recursive call finds `f` absent and stops.) -/
def disconnectW (w : World) (i f : ℕ) : ℕ → Option World
  | 0 => none
  | fuel + 1 =>
    match w.params.get? i with
    | none => none
    | some p =>
      if f ∈ w.connected_functions then
        let w' := { w with connected_functions := w.connected_functions.erase f }
        match p.twin with
        | none => some w'
        | some j => disconnectW w' j f fuel
      else some w

/-- The `free` property getter of the parameter at index `k`: a twinned
parameter is reported non-free regardless of its own `__free` flag. -/
def isfreeAt (ps : List Parameter) (k : ℕ) : Bool :=
  match ps.get? k with
  | some p => p.twin.isNone && p.free
  | none => false

/-- The number of elements of the parameter at index `k` (0 for a missing
index, which never occurs for owned parameters). -/
def noeAt (ps : List Parameter) (k : ℕ) : ℕ :=
  match ps.get? k with
  | some p => p.number_of_elements
  | none => 0

/-- The set `Component._update_free_parameters` rebuilds, as the canonical
ascending list of the indices of the free untwinned parameters. -/
def freeList (ps : List Parameter) : List ℕ :=
  (List.range ps.length).filter (fun k => isfreeAt ps k)

/-- Method `Component._update_free_parameters`: rebuild `free_parameters` from
scratch and recount `_nfree_param` as the sum of `_number_of_elements` over
that set. -/
def update_free_parameters (w : World) : World :=
  let fp := freeList w.params
  { w with free_parameters := fp, nfree_param := (fp.map (noeAt w.params)).sum }

/-- Method `Parameter._setfree` on an owned parameter: store the raw `__free` flag,
then have the owning component rebuild its free-parameter set. -/
def setfreeW (w : World) (k : ℕ) (b : Bool) : World :=
  match w.params.get? k with
  | none => w
  | some p =>
    update_free_parameters { w with params := w.params.set k { p with free := b } }

/-- Overwrite `__value` directly (the detach path of `_set_twin` does this on
purpose, bypassing the `value` setter and its observers). -/
def setRawValue (w : World) (i : ℕ) (v : PyVal) : World :=
  match w.params.get? i with
  | none => w
  | some p => { w with params := w.params.set i { p with value := v } }

/-- Rebind the `__twin` attribute of the parameter at index `i`. -/
def setTwinField (w : World) (i : ℕ) (t : Option ℕ) : World :=
  match w.params.get? i with
  | none => w
  | some p => { w with params := w.params.set i { p with twin := t } }

/-- The detach half of `_set_twin`:

    for f in self.connected_functions:
        self.__twin.disconnect(f)

iterating the shared list by position while each `disconnect` removes the
current entry from that same list. -/
def detachDisconnectLoop (t : ℕ) : ℕ → World → ℕ → Option World
  | 0, _, _ => none
  | fuel + 1, w, idx =>
    match w.connected_functions.get? idx with
    | none => some w
    | some f =>
      match disconnectW w t f (w.params.length + 1) with
      | none => none
      | some w' => detachDisconnectLoop t fuel w' (idx + 1)

/-- The attach half of `_set_twin`:

    for f in self.connected_functions:
        arg.connect(f)

iterating the shared list by position; each `connect` finds `f` already in
the shared list and leaves everything unchanged. -/
def attachConnectLoop (t : ℕ) : ℕ → World → ℕ → Option World
  | 0, _, _ => none
  | fuel + 1, w, idx =>
    match w.connected_functions.get? idx with
    | none => some w
    | some f =>
      match connectW w t f (w.params.length + 1) with
      | none => none
      | some w' => attachConnectLoop t fuel w' (idx + 1)

/-- The body of `Parameter._set_twin` before the final `__twin` rebinding.
Detaching (`arg is None` while twinned) first reads the current derived value
`self.value`, then — when `self` is registered in the shared `_twins` list —
removes it and walks the observers disconnecting them from the twin, and in
either case writes the snapshot straight into `__value`.  Attaching registers
`self` in `_twins` (idempotently, via membership in the shared list) and
propagates the observers onto the new twin. -/
def set_twin_body (tf : ℕ → ℚ → ℚ) (w : World) (i : ℕ) (arg : Option ℕ) :
    Option World :=
  match w.params.get? i with
  | none => none
  | some p =>
    match arg with
    | none =>
      match p.twin with
      | none => some w
      | some t =>
        match getvalueW tf w (w.params.length + 1) i with
        | none => none
        | some twin_value =>
          if i ∈ w._twins then
            let w1 := { w with _twins := w._twins.erase i }
            match detachDisconnectLoop t (w1.connected_functions.length + 1) w1 0 with
            | none => none
            | some w2 => some (setRawValue w2 i twin_value)
          else some (setRawValue w i twin_value)
    | some t =>
      if i ∈ w._twins then some w
      else
        let w1 := { w with _twins := w._twins ++ [i] }
        attachConnectLoop t (w1.connected_functions.length + 1) w1 0

/-- Method `Parameter._set_twin` (the `twin` property setter) on an owned parameter:
the detach/attach bookkeeping, then rebind `__twin` and have the owning
component rebuild its free-parameter set.  `_set_twin` invokes no observer
callback (the source stores the snapshot into `__value` precisely to avoid
that), which the always-empty second component records. -/
def set_twinW (tf : ℕ → ℚ → ℚ) (w : World) (i : ℕ) (arg : Option ℕ) :
    Option (World × List ℕ) :=
  (set_twin_body tf w i arg).map
    (fun w1 => (update_free_parameters (setTwinField w1 i arg), []))

/-- A mutation of an owned parameter's `free` or `twin` attribute. -/
inductive Mut where
  | setFree (k : ℕ) (b : Bool)
  | setTwin (k : ℕ) (t : Option ℕ)
deriving DecidableEq, Repr

/-- Run one `free`/`twin` mutation through the corresponding property setter. -/
def applyMut (tf : ℕ → ℚ → ℚ) (w : World) : Mut → Option World
  | .setFree k b => some (setfreeW w k b)
  | .setTwin k t => (set_twinW tf w k t).map Prod.fst

/-- Run a sequence of `free`/`twin` mutations. -/
def runMuts (tf : ℕ → ℚ → ℚ) : List Mut → World → Option World
  | [], w => some w
  | m :: rest, w =>
    match applyMut tf w m with
    | none => none
    | some w' => runMuts tf rest w'

/-- Set the plain `std` attribute of the parameter at index `k` (no checks,
no notification — it is an ordinary attribute in the source). -/
def setStd (w : World) (k : ℕ) (v : PyVal) : World :=
  match w.params.get? k with
  | none => w
  | some p => { w with params := w.params.set k { p with std := some v } }

/-- The loop of `Component.charge` over the targeted parameters, given as the
list `order` of indices to visit.  The running cursor `i` advances by each
parameter's `_number_of_elements`; a one-element parameter receives `p[i]`
(an `IndexError` on an exhausted vector propagates: `none`), a multi-element
one receives the (silently truncating) slice `p[i:i+length]`, whose length
the `value` setter then checks.  A `ValueError` raised by the setter
propagates out of `charge` (`none`). -/
def chargeFrom (tinv : ℕ → Option (ℚ → ℚ)) (raises : ℕ → Bool) (vec : List ℚ)
    (stdv : Option (List ℚ)) : List ℕ → World → ℕ → Option World
  | [], w, _ => some w
  | k :: rest, w, i =>
    match w.params.get? k with
    | none => none
    | some p =>
      let n := p.number_of_elements
      let argo : Option PyInput :=
        if n = 1 then (vec.get? i).map PyInput.scalar
        else some (.seq ((vec.drop i).take n))
      match argo with
      | none => none
      | some arg =>
        match setvalueW tinv raises (w.params.length + 1) w k arg with
        | none => none
        | some (.raised _) => none
        | some (.stored w1 _) =>
          let w2 :=
            match stdv with
            | none => w1
            | some sv =>
              if n = 1 then
                match sv.get? i with
                | none => w1
                | some q => setStd w1 k (.num q)
              else setStd w1 k (.tup ((sv.drop i).take n))
          chargeFrom tinv raises vec stdv rest w2 (i + n)

/-- The list of parameter indices `Component.charge` iterates: the whole
`parameters` tuple in declaration order when `onlyfree` is False, and the
Python set `free_parameters` — whose iteration order the language leaves
unspecified, supplied here explicitly as `freeOrder` — when it is True. -/
def chargeTargets (w : World) (onlyfree : Bool) (freeOrder : List ℕ) : List ℕ :=
  if onlyfree then freeOrder else List.range w.params.length

/-- Method `Component.charge(p, p_std, onlyfree)`. -/
def charge (tinv : ℕ → Option (ℚ → ℚ)) (raises : ℕ → Bool) (w : World)
    (vec : List ℚ) (stdv : Option (List ℚ)) (onlyfree : Bool)
    (freeOrder : List ℕ) : Option World :=
  chargeFrom tinv raises vec stdv (chargeTargets w onlyfree freeOrder) w 0

/-- The value the claim's flat-vector protocol assigns from `vec` at offset
`i` to a parameter of `n` elements: the single entry for `n = 1`, the
`n`-entry slice otherwise. -/
def sliceVal (vec : List ℚ) (i n : ℕ) : PyVal :=
  if n = 1 then .num (vec.getD i 0) else .tup ((vec.drop i).take n)

/-! ## Histogram_segmenter -/

/-- Membership test of `scipy.signal.argrelextrema(a, np.greater, mode='wrap')` for
index `j` (default `order=1`): the entry is strictly greater than both its
neighbours, with indices taken modulo the array length. -/
def isRelMax (a : List ℕ) (j : ℕ) : Bool :=
  match a.get? j, a.get? ((j + 1) % a.length), a.get? ((j + a.length - 1) % a.length) with
  | some x, some r, some l => decide (r < x) && decide (l < x)
  | _, _, _ => false

/-- The indices `argrelextrema(..., np.greater, mode='wrap')` returns, in
ascending order. -/
def argrelmaxWrap (a : List ℕ) : List ℕ :=
  (List.range a.length).filter (fun j => isRelMax a j)

/-- Python sequence indexing `l[k]` with negative-index wraparound (`l[-m]`
is `l[len(l) - m]`); `none` is an `IndexError`.  Both plain indexing and
numpy fancy indexing follow this rule. -/
def pyIndex (l : List ℚ) (k : ℤ) : Option ℚ :=
  if 0 ≤ k then l.get? k.toNat
  else if (-k).toNat ≤ l.length then l.get? (l.length - (-k).toNat) else none

/-- The per-histogram computation of `Histogram_segmenter.most_frequent`:
find the relative maxima of `np.append(0, hist)` with wrap-around comparison,
then report `0.5 * (bin_edges[i] + bin_edges[i-1])` for each maximum index
`i`.  `none` models an `IndexError` from the `bin_edges` gather (never hit on
a well-formed histogram, where `len(bin_edges) = len(hist) + 1`). -/
def most_frequent_values (hist : List ℕ) (bin_edges : List ℚ) : Option (List ℚ) :=
  (argrelmaxWrap (0 :: hist)).mapM (fun (j : ℕ) =>
    match pyIndex bin_edges (j : ℤ), pyIndex bin_edges ((j : ℤ) - 1) with
    | some e1, some e0 => some ((e1 + e0) / 2)
    | _, _ => none)

/-- Method `Histogram_segmenter.most_frequent` over the whole database (a mapping
component name → parameter name → (histogram counts, bin edges)). -/
def most_frequent (db : List (String × List (String × (List ℕ × List ℚ)))) :
    Option (List (String × List (String × List ℚ))) :=
  db.mapM (fun ce =>
    (ce.2.mapM (fun pe =>
      (most_frequent_values pe.2.1 pe.2.2).map (fun v => (pe.1, v)))).map
      (fun c => (ce.1, c)))

/-- Method `Histogram_segmenter.update`: rebuild the database from scratch, binning
each parameter's value ensemble with `np.histogram(par, max(10, min_points))`
when the ensemble is small and with the configured adaptive rule otherwise.
The two binning routines are external collaborators
(`numpy.histogram` and `hyperspy.external.astroML.histtools.histogram`),
passed in as functions. -/
def update (npHistogram : List ℚ → ℕ → List ℕ × List ℚ)
    (astroHistogram : List ℚ → List ℕ × List ℚ) (min_points : ℕ)
    (value_dict : List (String × List (String × List ℚ))) :
    List (String × List (String × (List ℕ × List ℚ))) :=
  value_dict.map (fun ce =>
    (ce.1, ce.2.map (fun pe =>
      (pe.1, if pe.2.length ≤ min_points then npHistogram pe.2 (max 10 min_points)
             else astroHistogram pe.2))))

/-- From the spec's words: the neighbour of position `k` of `a` under circular
(wrap-around) indexing, one step away in direction `d`. -/
def circNbr (a : List ℕ) (k : ℤ) : ℕ :=
  a.getD (k % (a.length : ℤ)).toNat 0

/-- From the spec's words: position `i` of the count sequence with a
zero-count sentinel bin prepended is a local maximum when its count strictly
exceeds both circular neighbours. -/
def specIsMax (counts : List ℕ) (i : ℕ) : Bool :=
  decide (circNbr (0 :: counts) ((i : ℤ) - 1) < (0 :: counts).getD i 0) &&
    decide (circNbr (0 :: counts) ((i : ℤ) + 1) < (0 :: counts).getD i 0)

/-- From the spec's words: all sentinel-circular local maxima, by ascending
position. -/
def specLocalMaxima (counts : List ℕ) : List ℕ :=
  (List.range (counts.length + 1)).filter (fun i => specIsMax counts i)

/-- From the spec's words: for each detected maximum at index `i`, the
midpoint of bin edges `i-1` and `i`, ordered by ascending index. -/
def spec_typical_values (hist : List ℕ) (edges : List ℚ) : List ℚ :=
  (specLocalMaxima hist).map (fun i => (edges.getD i 0 + edges.getD (i - 1) 0) / 2)

/-- The failure condition of the length check of `_setvalue`: a sequence
whose length differs from `_number_of_elements`, or a bare number on a
multi-element parameter. -/
def badLength (p : Parameter) : PyInput → Bool
  | .seq l => l.length != p.number_of_elements
  | .scalar _ => p.number_of_elements != 1

/-- The tuple conversion the length check performs on its argument. -/
def pyInputVal : PyInput → PyVal
  | .scalar q => .num q
  | .seq l => .tup l

/-- A parameter the flat-vector protocol addresses directly: untwinned and
with the external bounding policy off (the `value` setter then stores the
assigned entries verbatim). -/
def Plain (p : Parameter) : Prop := p.twin = none ∧ p.ext_bounded = false

/-- Attribute lookup `self.connected_functions` on the instance at index `i`:
no code path ever rebinds the attribute on an instance, so the lookup falls
through to the single class-level list for every instance. -/
def readConnected (w : World) (i : ℕ) : Option (List ℕ) :=
  (w.params.get? i).map (fun _ => w.connected_functions)

/-- Attribute lookup `self._twins` on the instance at index `i`: like
`connected_functions`, it resolves to the single class-level list. -/
def read_twins (w : World) (i : ℕ) : Option (List ℕ) :=
  (w.params.get? i).map (fun _ => w._twins)

/-- A component owning two freshly constructed `Parameter` instances. -/
def wFresh : World := update_free_parameters { params := [{}, {}] }

/-- The invariant `_update_free_parameters` (re)establishes: the stored
`free_parameters` is exactly the set of free untwinned parameters. -/
def freeInv (w : World) : Prop := w.free_parameters = freeList w.params

/-!
## Theorems

### Helper lemmas for the free-parameter invariant
-/

/-- Membership in the rebuilt free-parameter set is exactly "free flag set
and untwinned". -/
theorem mem_freeList (ps : List Parameter) (k : ℕ) :
    k ∈ freeList ps ↔ ∃ p, ps.get? k = some p ∧ p.twin = none ∧ p.free = true := by
  simp only [freeList, List.mem_filter, List.mem_range]
  constructor
  · rintro ⟨hk, hf⟩
    cases h : ps.get? k with
    | none => rw [isfreeAt, h] at hf; cases hf
    | some p =>
      rw [isfreeAt, h, Bool.and_eq_true, Option.isNone_iff_eq_none] at hf
      exact ⟨p, rfl, hf.1, hf.2⟩
  · rintro ⟨p, hp, ht, hf⟩
    have hk : k < ps.length := by
      by_contra hk
      rw [List.get?_eq_none.mpr (by omega)] at hp
      cases hp
    refine ⟨hk, ?_⟩
    unfold isfreeAt
    rw [hp]
    show (p.twin.isNone && p.free) = true
    rw [ht, hf]
    rfl

/-- Calling `_update_free_parameters` establishes the invariant. -/
theorem freeInv_update_free_parameters (w : World) :
    freeInv (update_free_parameters w) := rfl

/-- The `free` setter re-establishes the invariant. -/
theorem freeInv_setfreeW (w : World) (hw : freeInv w) (k : ℕ) (b : Bool) :
    freeInv (setfreeW w k b) := by
  unfold setfreeW
  cases h : w.params.get? k with
  | none => exact hw
  | some p => exact freeInv_update_free_parameters _

/-- The `twin` setter re-establishes the invariant whenever it returns. -/
theorem freeInv_set_twinW (tf : ℕ → ℚ → ℚ) (w : World) (i : ℕ) (t : Option ℕ)
    (w' : World) (calls : List ℕ) (h : set_twinW tf w i t = some (w', calls)) :
    freeInv w' := by
  unfold set_twinW at h
  cases hb : set_twin_body tf w i t with
  | none => rw [hb] at h; cases h
  | some w1 =>
    rw [hb, Option.map_some'] at h
    have : w' = update_free_parameters (setTwinField w1 i t) :=
      congrArg Prod.fst (Option.some.inj h).symm
    rw [this]
    exact freeInv_update_free_parameters _

/-- Every single `free`/`twin` mutation that completes re-establishes the
invariant. -/
theorem freeInv_applyMut (tf : ℕ → ℚ → ℚ) (w : World) (m : Mut) (w' : World)
    (hw : freeInv w) (h : applyMut tf w m = some w') : freeInv w' := by
  cases m with
  | setFree k b =>
    have : w' = setfreeW w k b := (Option.some.inj h).symm
    rw [this]; exact freeInv_setfreeW w hw k b
  | setTwin k t =>
    simp only [applyMut] at h
    cases hs : set_twinW tf w k t with
    | none => rw [hs] at h; cases h
    | some r =>
      rw [hs, Option.map_some'] at h
      exact freeInv_set_twinW tf w k t w' r.2
        (by rw [hs, ← Option.some.inj h])

/-- Running any sequence of completed mutations preserves the invariant. -/
theorem freeInv_runMuts (tf : ℕ → ℚ → ℚ) :
    ∀ (muts : List Mut) (w w' : World),
      freeInv w → runMuts tf muts w = some w' → freeInv w' := by
  intro muts
  induction muts with
  | nil => intro w w' hw h; rw [← Option.some.inj h]; exact hw
  | cons m rest ih =>
    intro w w' hw h
    unfold runMuts at h
    cases ha : applyMut tf w m with
    | none => rw [ha] at h; cases h
    | some w1 =>
      rw [ha] at h
      exact ih w1 w' (freeInv_applyMut tf w m w1 hw ha) h

/-- Claim C4: starting from any component state satisfying the constructor's
invariant, after any sequence of completed `free`/`twin` mutations on owned
parameters, `free_parameters` contains exactly the parameters whose raw
`free` flag is set and whose `twin` is `None` (a twinned parameter is always
reported non-free); both setters end by recomputing the set, so it is never
stale. -/
theorem C4_free_parameters_invariant (tf : ℕ → ℚ → ℚ) (w : World)
    (muts : List Mut) (w' : World) (k : ℕ)
    (hw : freeInv w) (hrun : runMuts tf muts w = some w') :
    k ∈ w'.free_parameters
      ↔ ∃ p, w'.params.get? k = some p ∧ p.twin = none ∧ p.free = true := by
  rw [freeInv_runMuts tf muts w w' hw hrun]
  exact mem_freeList _ _

/-- Witness for C4: three fresh parameters; fixing the first and twinning the
second leaves exactly the third in the free-parameter set. -/
theorem C4_free_parameters_invariant_witness :
    2 ∈ (⟨[{ free := false }, { twin := some 0 }, {}], [], [1], [2], 1⟩ : World).free_parameters :=
  (C4_free_parameters_invariant (fun _ q => q)
      (update_free_parameters { params := [{}, {}, {}] })
      [.setFree 0 false, .setTwin 1 (some 0)]
      ⟨[{ free := false }, { twin := some 0 }, {}], [], [1], [2], 1⟩ 2
      rfl (by decide)).mpr ⟨{}, rfl, rfl, rfl⟩

/-- Calling `disconnect` on an untwinned parameter just removes the observer from the
shared list (when present). -/
theorem disconnectW_untwinned (w : World) (t : ℕ) (pt : Parameter)
    (hp : w.params.get? t = some pt) (ht : pt.twin = none) (f fuel : ℕ) :
    disconnectW w t f (fuel + 1)
      = some (if f ∈ w.connected_functions
          then { w with connected_functions := w.connected_functions.erase f }
          else w) := by
  unfold disconnectW
  rw [hp]
  by_cases hf : f ∈ w.connected_functions
  · simp only [hf, if_pos, if_true]
    rw [ht]
  · simp [hf]

/-- The observer-detaching loop of `_set_twin` (on an untwinned twin) only
rewrites the shared observer list; it returns, and every other field of the
world survives. -/
theorem detachDisconnectLoop_spec (t : ℕ) (pt : Parameter) :
    ∀ (fuel : ℕ) (w : World) (idx : ℕ),
      w.params.get? t = some pt → pt.twin = none →
      w.connected_functions.length ≤ idx + fuel →
      ∃ conn', detachDisconnectLoop t (fuel + 1) w idx
        = some { w with connected_functions := conn' } := by
  intro fuel
  induction fuel with
  | zero =>
    intro w idx hp ht hlen
    refine ⟨w.connected_functions, ?_⟩
    unfold detachDisconnectLoop
    rw [List.get?_eq_none.mpr (by omega)]
  | succ fuel ih =>
    intro w idx hp ht hlen
    cases hg : w.connected_functions.get? idx with
    | none =>
      refine ⟨w.connected_functions, ?_⟩
      unfold detachDisconnectLoop
      rw [hg]
    | some f =>
      have hidx : idx < w.connected_functions.length := by
        by_contra hx
        rw [List.get?_eq_none.mpr (by omega)] at hg
        cases hg
      have hmem : f ∈ w.connected_functions := List.get?_mem hg
      have hlen' : (w.connected_functions.erase f).length = w.connected_functions.length - 1 :=
        List.length_erase_of_mem hmem
      obtain ⟨conn', hc⟩ := ih { w with connected_functions := w.connected_functions.erase f }
        (idx + 1) hp ht (by simp only [hlen']; omega)
      refine ⟨conn', ?_⟩
      unfold detachDisconnectLoop
      simp only [hg]
      rw [disconnectW_untwinned w t pt hp ht f w.params.length, if_pos hmem]
      exact hc

/-- Writing another index leaves a list entry unchanged. -/
theorem get?_set_ne {α : Type} (l : List α) (m n : ℕ) (h : m ≠ n) (a : α) :
    (l.set m a).get? n = l.get? n := by
  simp [List.get?_eq_getElem?, List.getElem?_set_ne h]

/-- Reading back a written list entry. -/
theorem get?_set_self {α : Type} (l : List α) (n : ℕ) (h : n < l.length) (a : α) :
    (l.set n a).get? n = some a := by
  simp [List.get?_eq_getElem?, List.getElem?_set_self, h]

/-- A successful indexed read is in range. -/
theorem lt_of_get?_eq_some {α : Type} {l : List α} {n : ℕ} {a : α}
    (h : l.get? n = some a) : n < l.length := by
  by_contra hx
  rw [List.get?_eq_none.mpr (by omega)] at h
  cases h

/-- The parameters after the untwinned store: only slot `i` changes, to the
argument transformed by the active constraint policy. -/
theorem storeUntwinned_fst_params (raises : ℕ → Bool) (w : World) (i : ℕ)
    (p : Parameter) (argT : PyVal) :
    (storeUntwinned raises w i p argT).1.params
      = w.params.set i
          { p with value := if p.ext_bounded = false then argT else boundedValue p argT } := by
  simp only [storeUntwinned]
  split_ifs <;> rfl

/-- Reading the value through one twin link: `twin_function` applied to the
untwinned twin's stored value. -/
theorem getvalueW_one_link (tf : ℕ → ℚ → ℚ) (w : World) (a b : ℕ)
    (pa pb : Parameter) (ha : w.params.get? a = some pa)
    (hb : w.params.get? b = some pb) (hta : pa.twin = some b)
    (htb : pb.twin = none) (fuel : ℕ) :
    getvalueW tf w (fuel + 2) a = some (applyF (tf a) pb.value) := by
  simp only [getvalueW, ha, hta, hb, htb, Option.map_some']

/-- A successful indexed read determines `getD`. -/
theorem getD_of_get? {α : Type} {l : List α} {n : ℕ} {a : α}
    (h : l.get? n = some a) (d : α) : l.getD n d = a := by
  simp [List.getD_eq_getElem?_getD, ← List.get?_eq_getElem?, h]

/-- Assigning through the `value` setter to an untwinned, unbounded parameter
with a well-sized argument: the world stores the argument (as a tuple when it
was a sequence) at slot `i` and the outcome is `stored`. -/
theorem setvalueW_plain (tinv : ℕ → Option (ℚ → ℚ)) (raises : ℕ → Bool)
    (fuel : ℕ) (w : World) (i : ℕ) (p : Parameter)
    (hp : w.params.get? i = some p) (ht : p.twin = none)
    (hb : p.ext_bounded = false) (arg : PyInput)
    (hlen : badLength p arg = false) :
    ∃ X called, setvalueW tinv raises (fuel + 1) w i arg = some (.stored X called)
      ∧ X.params = w.params.set i { p with value := pyInputVal arg } := by
  cases arg with
  | scalar q =>
    have hn : p.number_of_elements = 1 := by
      simpa [badLength] using hlen
    refine ⟨(storeUntwinned raises w i p (.num q)).1,
            (storeUntwinned raises w i p (.num q)).2, ?_, ?_⟩
    · simp only [setvalueW, hp, hn, ne_eq, not_true_eq_false, if_false, ht]
    · rw [storeUntwinned_fst_params, hb]
      rfl
  | seq l =>
    have hn : l.length = p.number_of_elements := by
      simpa [badLength] using hlen
    refine ⟨(storeUntwinned raises w i p (.tup l)).1,
            (storeUntwinned raises w i p (.tup l)).2, ?_, ?_⟩
    · simp only [setvalueW, hp, hn, bne_self_eq_false, ne_eq, not_true_eq_false,
        if_false, ht]
    · rw [storeUntwinned_fst_params, hb]
      rfl

/-- The flat-vector protocol relative to an arbitrary visiting order:
`chargeFrom` walks `order`, giving the parameter at the `j`-th visited index
the slice of `vec` that starts after the elements consumed by the earlier
visited parameters, and leaves every other parameter untouched. -/
theorem chargeFrom_assigns (tinv : ℕ → Option (ℚ → ℚ)) (raises : ℕ → Bool)
    (vec : List ℚ) :
    ∀ (order : List ℕ) (w : World) (i : ℕ),
      order.Nodup →
      (∀ k ∈ order, ∃ p, w.params.get? k = some p ∧ Plain p) →
      i + ((order.map (noeAt w.params)).sum) ≤ vec.length →
      ∃ w', chargeFrom tinv raises vec none order w i = some w' ∧
        w'.params.length = w.params.length ∧
        (∀ k, k ∉ order → w'.params.get? k = w.params.get? k) ∧
        (∀ j k, order.get? j = some k →
          ∃ p, w.params.get? k = some p ∧
            w'.params.get? k = some { p with
              value := sliceVal vec (i + (((order.take j).map (noeAt w.params)).sum))
                         p.number_of_elements }) := by
  intro order
  induction order with
  | nil =>
    intro w i _ _ _
    exact ⟨w, rfl, rfl, fun k _ => rfl, fun j k hjk => by cases hjk⟩
  | cons k rest ih =>
    intro w i hnd hps hlen
    obtain ⟨p, hpk, htw, hbd⟩ := hps k (List.mem_cons_self k rest)
    have hkl : k < w.params.length := lt_of_get?_eq_some hpk
    have hnoe : noeAt w.params k = p.number_of_elements := by
      unfold noeAt
      rw [hpk]
    have hlen' : i + p.number_of_elements + ((rest.map (noeAt w.params)).sum)
        ≤ vec.length := by
      rw [List.map_cons, List.sum_cons, hnoe] at hlen
      omega
    -- the argument chargeFrom builds for this parameter
    have harg : ∃ arg, (if p.number_of_elements = 1
          then (vec.get? i).map PyInput.scalar
          else some (.seq ((vec.drop i).take p.number_of_elements))) = some arg
        ∧ badLength p arg = false
        ∧ pyInputVal arg = sliceVal vec i p.number_of_elements := by
      by_cases hn1 : p.number_of_elements = 1
      · have hi : i < vec.length := by omega
        cases hv : vec.get? i with
        | none =>
          exact absurd (List.get?_eq_none.mp hv) (by omega)
        | some v =>
          refine ⟨.scalar v, by simp [hn1, hv], by simp [badLength, hn1], ?_⟩
          simp [pyInputVal, sliceVal, hn1, ← List.get?_eq_getElem?, hv]
      · refine ⟨.seq ((vec.drop i).take p.number_of_elements), by simp [hn1], ?_, ?_⟩
        · have : ((vec.drop i).take p.number_of_elements).length
              = p.number_of_elements := by
            simp [List.length_take, List.length_drop]
            omega
          simp [badLength, this]
        · simp [pyInputVal, sliceVal, hn1]
    obtain ⟨arg, hargo, hbad, hpv⟩ := harg
    obtain ⟨X, called, hset, hX⟩ :=
      setvalueW_plain tinv raises w.params.length w k p hpk htw hbd arg hbad
    have hXk' : ∀ k', k' ≠ k → X.params.get? k' = w.params.get? k' := by
      intro k' hk
      rw [hX, get?_set_ne _ _ _ (fun hh => hk hh.symm)]
    have hXk : X.params.get? k = some { p with value := pyInputVal arg } := by
      rw [hX]
      exact get?_set_self _ _ hkl _
    have hnoeX : noeAt X.params = noeAt w.params := by
      funext k''
      by_cases hk : k'' = k
      · subst hk
        unfold noeAt
        rw [hXk, hpk]
      · unfold noeAt
        rw [hXk' k'' hk]
    obtain ⟨hknr, hndr⟩ := List.nodup_cons.mp hnd
    obtain ⟨w', hrun, hwlen, huntouched, hassigned⟩ :=
      ih X (i + p.number_of_elements) hndr
        (fun k' hk' => by
          obtain ⟨p', hp', hpl'⟩ := hps k' (List.mem_cons_of_mem k hk')
          exact ⟨p', by rw [hXk' k' (fun hh => hknr (hh ▸ hk'))]; exact hp', hpl'⟩)
        (by rw [hnoeX]; exact hlen')
    refine ⟨w', ?_, ?_, ?_, ?_⟩
    · simp only [chargeFrom, hpk, hargo, hset]
      exact hrun
    · rw [hwlen, hX, List.length_set]
    · intro k' hk'
      have hk'k : k' ≠ k := fun hh => hk' (hh ▸ List.mem_cons_self k rest)
      have hk'r : k' ∉ rest := fun hh => hk' (List.mem_cons_of_mem k hh)
      rw [huntouched k' hk'r, hXk' k' hk'k]
    · intro j k' hjk
      cases j with
      | zero =>
        have hkk : k' = k := by
          rw [List.get?] at hjk
          exact (Option.some.inj hjk).symm
        subst hkk
        refine ⟨p, hpk, ?_⟩
        rw [huntouched k' hknr, hXk, hpv]
        simp
      | succ j =>
        have hjr : rest.get? j = some k' := hjk
        have hk'r : k' ∈ rest := List.get?_mem hjr
        have hk'k : k' ≠ k := fun hh => hknr (hh ▸ hk'r)
        obtain ⟨p', hp', hw'⟩ := hassigned j k' hjr
        rw [hXk' k' hk'k] at hp'
        refine ⟨p', hp', ?_⟩
        rw [hw', hnoeX]
        have : (i + ((((k :: rest).take (j + 1)).map (noeAt w.params)).sum))
            = (i + p.number_of_elements
                + (((rest.take j).map (noeAt w.params)).sum)) := by
          simp [List.take_cons, hnoe]
          omega
        rw [this]

/-- Detaching a parameter from an untwinned twin: `_set_twin(None)` stores
the derived snapshot straight into slot `a` and otherwise only touches the
shared observer and `_twins` lists. -/
theorem set_twin_body_detach (tf : ℕ → ℚ → ℚ) (w : World) (a b : ℕ)
    (pa pb : Parameter) (ha : w.params.get? a = some pa)
    (hb : w.params.get? b = some pb) (hta : pa.twin = some b)
    (htb : pb.twin = none) :
    ∃ W2, set_twin_body tf w a none = some W2 ∧
      W2.params = w.params.set a { pa with value := applyF (tf a) pb.value } := by
  have hlena : a < w.params.length := lt_of_get?_eq_some ha
  have hval : getvalueW tf w (w.params.length + 1) a = some (applyF (tf a) pb.value) := by
    have hfe : w.params.length + 1 = (w.params.length - 1) + 2 := by omega
    rw [hfe]
    exact getvalueW_one_link tf w a b pa pb ha hb hta htb _
  by_cases hmem : a ∈ w._twins
  · obtain ⟨conn', hloop⟩ := detachDisconnectLoop_spec b pb
      w.connected_functions.length { w with _twins := w._twins.erase a } 0 hb htb (by simp)
    refine ⟨setRawValue { w with _twins := w._twins.erase a, connected_functions := conn' } a
        (applyF (tf a) pb.value), ?_, ?_⟩
    · simp only [set_twin_body, ha, hta, hval, if_pos hmem]
      rw [hloop]
    · simp only [setRawValue, ha]
  · refine ⟨setRawValue w a (applyF (tf a) pb.value), ?_, ?_⟩
    · simp only [set_twin_body, ha, hta, hval, if_neg hmem]
    · simp only [setRawValue, ha]

/-- Claim C7: clearing `twin` on a parameter `A` twinned to an untwinned `B`
snapshots `twin_function(B.value)` and writes it straight into `A.__value` —
bypassing the constraint policy and invoking no observer callback (the second
component of `set_twinW` is `[]`) — leaves `B`'s state untouched, and an
immediate read of `A.value` returns the snapshot even after any later
completed assignment to `B.value`. -/
theorem C7_detach_snapshots_value (tf : ℕ → ℚ → ℚ) (tinv : ℕ → Option (ℚ → ℚ))
    (raises : ℕ → Bool) (w : World) (a b : ℕ) (pa pb : Parameter)
    (ha : w.params.get? a = some pa) (hb : w.params.get? b = some pb)
    (hta : pa.twin = some b) (htb : pb.twin = none) (hab : a ≠ b) :
    ∃ w', set_twinW tf w a none = some (w', []) ∧
      w'.params.get? a = some { pa with value := applyF (tf a) pb.value, twin := none } ∧
      w'.params.get? b = some pb ∧
      (∀ (arg : PyInput) (w3 : World) (called : List ℕ) (fuel : ℕ),
        setvalueW tinv raises fuel w' b arg = some (.stored w3 called) →
        getvalueW tf w3 1 a = some (applyF (tf a) pb.value)) := by
  obtain ⟨W2, hbody, hW2⟩ := set_twin_body_detach tf w a b pa pb ha hb hta htb
  have hlena : a < w.params.length := lt_of_get?_eq_some ha
  have hW2a : W2.params.get? a = some { pa with value := applyF (tf a) pb.value } := by
    rw [hW2]; exact get?_set_self _ _ hlena _
  have hst : (setTwinField W2 a none).params
      = w.params.set a { pa with value := applyF (tf a) pb.value, twin := none } := by
    simp only [setTwinField, hW2a]
    rw [hW2, List.set_set]
  have hwa : (update_free_parameters (setTwinField W2 a none)).params.get? a
      = some { pa with value := applyF (tf a) pb.value, twin := none } := by
    show (setTwinField W2 a none).params.get? a = _
    rw [hst]; exact get?_set_self _ _ hlena _
  have hwb : (update_free_parameters (setTwinField W2 a none)).params.get? b = some pb := by
    show (setTwinField W2 a none).params.get? b = _
    rw [hst, get?_set_ne _ _ _ hab, hb]
  refine ⟨update_free_parameters (setTwinField W2 a none), ?_, hwa, hwb, ?_⟩
  · rw [set_twinW, hbody, Option.map_some']
  · intro arg w3 called fuel h
    cases fuel with
    | zero => exact absurd h (by simp [setvalueW])
    | succ fuel =>
      have hXa : ∀ argT,
          (storeUntwinned raises (update_free_parameters (setTwinField W2 a none)) b pb argT).1.params.get? a
            = some { pa with value := applyF (tf a) pb.value, twin := none } := by
        intro argT
        rw [storeUntwinned_fst_params, get?_set_ne _ _ _ (Ne.symm hab)]
        exact hwa
      cases arg with
      | seq l =>
        simp only [setvalueW, hwb] at h
        by_cases hn : l.length = pb.number_of_elements
        · simp only [hn, bne_self_eq_false, ne_eq, not_true_eq_false, if_neg, htb,
            if_false, Option.some.injEq, SetOutcome.stored.injEq] at h
          · rw [← h.1]
            simp only [getvalueW, hXa]
        · simp only [if_pos, hn, htb] at h
          · simp only [ne_eq, hn, not_false_eq_true, if_true] at h
            cases h
      | scalar q =>
        simp only [setvalueW, hwb] at h
        by_cases hn : pb.number_of_elements = 1
        · simp only [hn, ne_eq, not_true_eq_false, if_neg, htb, if_false,
            Option.some.injEq, SetOutcome.stored.injEq] at h
          · rw [← h.1]
            simp only [getvalueW, hXa]
        · simp only [ne_eq, hn, not_false_eq_true, if_true] at h
          cases h

/-- Option-valued map over a list all of whose elements succeed. -/
theorem mapM_eq_map_of {α β : Type} (f : α → Option β) (g : α → β) :
    ∀ l : List α, (∀ a ∈ l, f a = some (g a)) → l.mapM f = some (l.map g) := by
  intro l
  induction l with
  | nil => intro h; rfl
  | cons a t ih =>
    intro h
    rw [List.map_cons, List.mapM_cons, h a (List.mem_cons_self a t),
        ih (fun b hb => h b (List.mem_cons_of_mem a hb))]
    rfl

/-- A successful indexed read written with `getD`. -/
theorem get?_eq_some_getD {α : Type} (l : List α) (n : ℕ) (d : α)
    (h : n < l.length) : l.get? n = some (l.getD n d) := by
  cases hv : l.get? n with
  | none => exact absurd (List.get?_eq_none.mp hv) (by omega)
  | some a => rw [getD_of_get? hv]

/-- The `+1` circular neighbour index, moved from `ℤ` to `ℕ`. -/
theorem zmod_succ_index (j m : ℕ) :
    ((((j : ℤ) + 1) % (m : ℤ)).toNat) = (j + 1) % m := by
  have h1 : ((j : ℤ) + 1) % (m : ℤ) = (((j + 1) % m : ℕ) : ℤ) := by
    push_cast
    ring_nf
  rw [h1]
  exact Int.toNat_natCast _

/-- The `-1` circular neighbour index, moved from `ℤ` to `ℕ`: subtracting one
modulo `m` is adding `m - 1`. -/
theorem zmod_pred_index (j m : ℕ) (hm : 0 < m) (hj : j < m) :
    (((j : ℤ) - 1) % (m : ℤ)).toNat = (j + m - 1) % m := by
  cases j with
  | zero =>
    have h0 : (((0 : ℕ) : ℤ) - 1) % (m : ℤ) = ((m : ℤ) - 1) % m := by
      have hr : (((0 : ℕ) : ℤ) - 1) = ((m : ℤ) - 1) + m * (-1) := by push_cast; ring
      rw [hr, Int.add_mul_emod_self_left]
    rw [h0, Int.emod_eq_of_lt (by omega) (by omega)]
    have h2 : (0 + m - 1) % m = 0 + m - 1 := Nat.mod_eq_of_lt (by omega)
    omega
  | succ n =>
    have h1 : (((n + 1 : ℕ) : ℤ) - 1) % (m : ℤ) = ((n % m : ℕ) : ℤ) := by
      push_cast
      ring_nf
    rw [h1, Int.toNat_natCast]
    have h2 : n + 1 + m - 1 = n + m := by omega
    rw [h2, Nat.add_mod_right]

/-- The prepended sentinel bin is never a relative maximum: counts cannot be
negative. -/
theorem isRelMax_zero (hist : List ℕ) : isRelMax (0 :: hist) 0 = false := by
  unfold isRelMax
  cases h1 : (0 :: hist).get? ((0 + 1) % (0 :: hist).length) with
  | none => simp [h1]
  | some r =>
    cases h2 : (0 :: hist).get? ((0 + (0 :: hist).length - 1) % (0 :: hist).length) with
    | none => simp [h1, h2]
    | some l => simp [h1, h2]

/-- Any detected maximum of the sentinel-prepended counts lies at a positive
index. -/
theorem isRelMax_pos (hist : List ℕ) (j : ℕ)
    (h : isRelMax (0 :: hist) j = true) : 1 ≤ j := by
  by_contra hx
  have hj : j = 0 := by omega
  subst hj
  rw [isRelMax_zero] at h
  cases h

/-- The scipy wrap-around maximum test agrees with the spec's sentinel-and-
circular-neighbour formulation at every in-range index. -/
theorem isRelMax_eq_specIsMax (hist : List ℕ) (j : ℕ)
    (hj : j < hist.length + 1) :
    isRelMax (0 :: hist) j = specIsMax hist j := by
  have hm0 : 0 < (0 :: hist).length := by simp
  unfold isRelMax specIsMax circNbr
  rw [get?_eq_some_getD _ j 0 (by simpa using hj),
      get?_eq_some_getD _ ((j + 1) % (0 :: hist).length) 0 (Nat.mod_lt _ hm0),
      get?_eq_some_getD _ ((j + (0 :: hist).length - 1) % (0 :: hist).length) 0
        (Nat.mod_lt _ hm0),
      zmod_succ_index j (0 :: hist).length,
      zmod_pred_index j (0 :: hist).length hm0 (by simpa using hj)]
  exact Bool.and_comm _ _

/-- The list of detected maxima agrees with the spec's formulation. -/
theorem argrelmax_eq_specLocalMaxima (hist : List ℕ) :
    argrelmaxWrap (0 :: hist) = specLocalMaxima hist := by
  unfold argrelmaxWrap specLocalMaxima
  exact List.filter_congr
    (fun j hj => isRelMax_eq_specIsMax hist j (List.mem_range.mp hj))

/-- On a well-formed histogram (`len(bin_edges) = len(hist) + 1`) the
`most_frequent` computation never raises and returns exactly the
spec-formulated typical values. -/
theorem most_frequent_values_eq_spec (hist : List ℕ) (edges : List ℚ)
    (he : edges.length = hist.length + 1) :
    most_frequent_values hist edges = some (spec_typical_values hist edges) := by
  unfold most_frequent_values spec_typical_values
  rw [argrelmax_eq_specLocalMaxima]
  apply mapM_eq_map_of
  intro j hj
  have hjr : j ∈ List.range (hist.length + 1) := List.mem_of_mem_filter hj
  have hjm : j < hist.length + 1 := List.mem_range.mp hjr
  have hjt : specIsMax hist j = true := List.of_mem_filter hj
  have hj1 : 1 ≤ j :=
    isRelMax_pos hist j (by rw [isRelMax_eq_specIsMax hist j hjm]; exact hjt)
  have h1 : pyIndex edges (j : ℤ) = some (edges.getD j 0) := by
    unfold pyIndex
    rw [if_pos (by omega), Int.toNat_natCast]
    exact get?_eq_some_getD _ _ _ (by omega)
  have h2 : pyIndex edges ((j : ℤ) - 1) = some (edges.getD (j - 1) 0) := by
    unfold pyIndex
    rw [if_pos (by omega)]
    have ht : ((j : ℤ) - 1).toNat = j - 1 := by omega
    rw [ht]
    exact get?_eq_some_getD _ _ _ (by omega)
  rw [h1, h2]

/-- A relative maximum carries a nonzero count: it strictly exceeds a
neighbour, which is at least `0`. -/
theorem isRelMax_nonzero (a : List ℕ) (j : ℕ)
    (h : isRelMax a j = true) : ∃ x, a.get? j = some x ∧ 0 < x := by
  unfold isRelMax at h
  cases h1 : a.get? j with
  | none => rw [h1] at h; cases h
  | some x =>
    rw [h1] at h
    cases h2 : a.get? ((j + 1) % a.length) with
    | none => rw [h2] at h; cases h
    | some r =>
      rw [h2] at h
      cases h3 : a.get? ((j + a.length - 1) % a.length) with
      | none => rw [h3] at h; cases h
      | some l =>
        rw [h3] at h
        simp only [Bool.and_eq_true, decide_eq_true_eq] at h
        exact ⟨x, rfl, by omega⟩

/-- A strictly increasing list whose elements are all equal has at most one
element. -/
theorem length_le_one_of_all_eq {l : List ℕ} (hnd : l.Pairwise (· < ·))
    (h : ∀ x ∈ l, ∀ y ∈ l, x = y) : l.length ≤ 1 := by
  cases l with
  | nil => simp
  | cons a t =>
    cases t with
    | nil => simp
    | cons b t2 =>
      have hab : a < b := (List.pairwise_cons.mp hnd).1 b (List.mem_cons_self b t2)
      have heq : a = b :=
        h a (List.mem_cons_self a _) b (List.mem_cons_of_mem a (List.mem_cons_self b t2))
      omega

/-- Claim C8: on every well-formed stored histogram, `most_frequent` computes
exactly the spec's description — the local maxima of the count sequence with
a zero-count sentinel prepended under circular neighbour comparison, each
reported as the midpoint `(bin_edges[i-1] + bin_edges[i]) / 2` of the edges
below its index — without raising, ordered by ascending index (the maxima
list is strictly increasing). -/
theorem C8_most_frequent_matches_spec (hist : List ℕ) (edges : List ℚ)
    (he : edges.length = hist.length + 1) :
    most_frequent_values hist edges = some (spec_typical_values hist edges)
    ∧ (specLocalMaxima hist).Pairwise (· < ·) := by
  refine ⟨most_frequent_values_eq_spec hist edges he, ?_⟩
  exact List.Pairwise.sublist (List.filter_sublist _) (List.pairwise_lt_range _)

/-- Witness for C8: the histogram `[1, 3, 1]` with edges `[0, 1, 2, 3]` (one
interior peak). -/
theorem C8_most_frequent_matches_spec_witness :
    most_frequent_values [1, 3, 1] [0, 1, 2, 3]
      = some (spec_typical_values [1, 3, 1] [0, 1, 2, 3]) :=
  (C8_most_frequent_matches_spec [1, 3, 1] [0, 1, 2, 3] rfl).1

/-- Claim C9 (amended): on a well-formed histogram `most_frequent` never
raises; an empty histogram, and a perfectly flat histogram with at least two
bins, yield no typical value (the needed correction: a single-bin flat
histogram with a positive count yields one); and a histogram with at most one
nonzero bin — what an ensemble of constant values produces under any binning
— yields at most one typical value, with no failure at the wrap-around
boundary. -/
theorem C9_flat_and_constant_histograms (hist : List ℕ) (edges : List ℚ)
    (c : ℕ) (he : edges.length = hist.length + 1) :
    (most_frequent_values hist edges).isSome = true
    ∧ (hist = [] → most_frequent_values hist edges = some [])
    ∧ (2 ≤ hist.length → (∀ x ∈ hist, x = c) →
        most_frequent_values hist edges = some [])
    ∧ ((∀ k₁ k₂ x₁ x₂, hist.get? k₁ = some x₁ → hist.get? k₂ = some x₂ →
          x₁ ≠ 0 → x₂ ≠ 0 → k₁ = k₂) →
        ((most_frequent_values hist edges).getD []).length ≤ 1) := by
  refine ⟨?_, ?_, ?_, ?_⟩
  · rw [most_frequent_values_eq_spec hist edges he]
    rfl
  · intro h
    subst h
    rw [most_frequent_values_eq_spec [] edges he]
    rfl
  · intro h2 hflat
    have hget : ∀ i, i < hist.length → (0 :: hist).get? (i + 1) = some c := by
      intro i hi
      show hist.get? i = some c
      cases hv : hist.get? i with
      | none => exact absurd (List.get?_eq_none.mp hv) (by omega)
      | some x => rw [hflat x (List.get?_mem hv)]
    have hmax : argrelmaxWrap (0 :: hist) = [] := by
      unfold argrelmaxWrap
      refine List.filter_eq_nil_iff.mpr ?_
      intro j hj
      have hjm : j < hist.length + 1 := by simpa using List.mem_range.mp hj
      simp only [Bool.not_eq_true]
      cases j with
      | zero => exact isRelMax_zero hist
      | succ i =>
        by_cases hlast : i + 1 = hist.length
        · -- the last bin: its right neighbour wraps to the sentinel, but its
          -- left neighbour is the equal count before it
          have hlen : (0 :: hist).length = hist.length + 1 := rfl
          have hr : (i + 1 + 1) % (0 :: hist).length = 0 := by
            rw [hlen, hlast]
            exact Nat.mod_self _
          have hlidx : (i + 1 + (0 :: hist).length - 1) % (0 :: hist).length = i := by
            rw [hlen]
            have : i + 1 + (hist.length + 1) - 1 = i + (hist.length + 1) := by omega
            rw [this, Nat.add_mod_right]
            exact Nat.mod_eq_of_lt (by omega)
          obtain ⟨k, hk⟩ : ∃ k, i = k + 1 := ⟨i - 1, by omega⟩
          unfold isRelMax
          rw [hr, hlidx, hget i (by omega), hk, hget k (by omega)]
          show (decide (0 < c) && decide (c < c)) = false
          simp
        · -- an interior bin: its right neighbour is the equal count after it
          have hr : (i + 1 + 1) % (0 :: hist).length = i + 2 :=
            Nat.mod_eq_of_lt (by simp; omega)
          unfold isRelMax
          rw [hr, hget i (by omega), hget (i + 1) (by omega)]
          cases h3 : (0 :: hist).get? ((i + 1 + (0 :: hist).length - 1) % (0 :: hist).length) with
          | none => rfl
          | some l =>
            show (decide (c < c) && decide (l < c)) = false
            simp
    unfold most_frequent_values
    rw [hmax]
    rfl
  · intro hone
    rw [most_frequent_values_eq_spec hist edges he]
    show (spec_typical_values hist edges).length ≤ 1
    unfold spec_typical_values
    rw [List.length_map, ← argrelmax_eq_specLocalMaxima]
    apply length_le_one_of_all_eq
      (List.Pairwise.sublist (List.filter_sublist _) (List.pairwise_lt_range _))
    intro x hx y hy
    have hx' : isRelMax (0 :: hist) x = true := List.of_mem_filter hx
    have hy' : isRelMax (0 :: hist) y = true := List.of_mem_filter hy
    have hx1 : 1 ≤ x := isRelMax_pos _ _ hx'
    have hy1 : 1 ≤ y := isRelMax_pos _ _ hy'
    obtain ⟨xv, hxv, hxvpos⟩ := isRelMax_nonzero _ _ hx'
    obtain ⟨yv, hyv, hyvpos⟩ := isRelMax_nonzero _ _ hy'
    obtain ⟨x', rfl⟩ : ∃ x', x = x' + 1 := ⟨x - 1, by omega⟩
    obtain ⟨y', rfl⟩ : ∃ y', y = y' + 1 := ⟨y - 1, by omega⟩
    have := hone x' y' xv yv hxv hyv (by omega) (by omega)
    omega

/-- Witness for C9: the flat two-bin histogram `[2, 2]` yields no typical
value. -/
theorem C9_flat_and_constant_histograms_witness :
    most_frequent_values [2, 2] [0, 1, 2] = some [] :=
  (C9_flat_and_constant_histograms [2, 2] [0, 1, 2] 2 rfl).2.2.1 (by decide)
    (by decide)

/-- Claim C2 (amended): `charge` assigns consecutive slices of the flat
vector, each targeted parameter consuming `number_of_elements` entries, in
the order it visits the parameters: with `onlyfree=False` that order is the
`parameters` tuple in declaration order (`chargeTargets` is then
`List.range`), while with `onlyfree=True` it is the iteration order of the
Python set `free_parameters` — an enumeration of the free parameters whose
order the language leaves unspecified — so the slices follow the set's
iteration order, not necessarily declaration order. -/
theorem C2_charge_assigns_slices_in_iteration_order
    (tinv : ℕ → Option (ℚ → ℚ)) (raises : ℕ → Bool) (w : World) (vec : List ℚ)
    (onlyfree : Bool) (freeOrder : List ℕ)
    (hperm : onlyfree = true → freeOrder.Perm w.free_parameters)
    (hnd : (chargeTargets w onlyfree freeOrder).Nodup)
    (hps : ∀ k ∈ chargeTargets w onlyfree freeOrder,
      ∃ p, w.params.get? k = some p ∧ Plain p)
    (hlen : ((chargeTargets w onlyfree freeOrder).map (noeAt w.params)).sum
      = vec.length) :
    ∃ w', charge tinv raises w vec none onlyfree freeOrder = some w' ∧
      (∀ k, k ∉ chargeTargets w onlyfree freeOrder →
        w'.params.get? k = w.params.get? k) ∧
      (∀ j k, (chargeTargets w onlyfree freeOrder).get? j = some k →
        ∃ p, w.params.get? k = some p ∧
          w'.params.get? k = some { p with
            value := sliceVal vec
              ((((chargeTargets w onlyfree freeOrder).take j).map (noeAt w.params)).sum)
              p.number_of_elements }) := by
  obtain ⟨w', h1, h2, h3, h4⟩ := chargeFrom_assigns tinv raises vec
    (chargeTargets w onlyfree freeOrder) w 0 hnd hps (by omega)
  refine ⟨w', h1, h3, ?_⟩
  intro j k hjk
  obtain ⟨p, hp, hw⟩ := h4 j k hjk
  refine ⟨p, hp, ?_⟩
  simpa using hw

/-- Claim C2, counterexample: with two free one-element parameters (declared
as indices 0 and 1) and flat vector `[1, 2]`, iterating the free-parameter
set in the order `(p1, p0)` — a legitimate enumeration of the set, whose
iteration order Python leaves unspecified — makes `charge(..., onlyfree=True)`
assign `2` to the first-declared parameter, where the claimed declaration-
order protocol says it receives `1`. -/
theorem C2_counterexample_set_iteration_order :
    [1, 0].Perm (⟨[{}, {}], [], [], [0, 1], 2⟩ : World).free_parameters
    ∧ charge (fun _ => none) (fun _ => false)
        (⟨[{}, {}], [], [], [0, 1], 2⟩ : World) [1, 2] none true [1, 0]
        = some (⟨[{ value := .num 2 }, { value := .num 1 }], [], [], [0, 1], 2⟩ : World)
    ∧ (PyVal.num 2 ≠ PyVal.num 1) := by
  refine ⟨by decide, by decide, by decide⟩

/-- Witness for C2: the amended theorem applied to the counterexample's
component (order `[1, 0]`, vector `[1, 2]`). -/
theorem C2_charge_assigns_slices_witness :
    (charge (fun _ => none) (fun _ => false)
      (⟨[{}, {}], [], [], [0, 1], 2⟩ : World) [1, 2] none true [1, 0]).isSome = true := by
  obtain ⟨w', h1, -, -⟩ := C2_charge_assigns_slices_in_iteration_order
    (fun _ => none) (fun _ => false) (⟨[{}, {}], [], [], [0, 1], 2⟩ : World)
    [1, 2] true [1, 0]
    (fun _ => by decide) (by decide)
    (fun k hk => by
      have hk' : k = 1 ∨ k = 0 := by simpa [chargeTargets] using hk
      rcases hk' with h | h <;> subst h <;> exact ⟨{}, rfl, rfl, rfl⟩)
    (by decide)
  rw [h1]
  rfl

/-- Witness for C7: a parameter with `bmax = 10` twinned to a parameter whose
value is `42`; detaching stores the snapshot `42` directly, although it
violates the bound — the constraint policy is bypassed. -/
theorem C7_detach_snapshots_value_witness :
    (set_twinW (fun _ q => q)
        { params := [{ twin := some 1, ext_bounded := true, bmax := some 10 },
                     { value := .num 42 }],
          _twins := [0], free_parameters := [1], nfree_param := 1 } 0 none).map
      (fun r => (r.1.params.get? 0).map Parameter.value)
      = some (some (.num 42)) := by
  obtain ⟨w', h1, h2, -, -⟩ := C7_detach_snapshots_value (fun _ q => q) (fun _ => none)
    (fun _ => false)
    { params := [{ twin := some 1, ext_bounded := true, bmax := some 10 },
                 { value := .num 42 }],
      _twins := [0], free_parameters := [1], nfree_param := 1 }
    0 1 { twin := some 1, ext_bounded := true, bmax := some 10 } { value := .num 42 }
    rfl rfl rfl rfl (by decide)
  rw [h1, Option.map_some', h2]
  rfl

/-- Claim C1: with `ext_force_positive=True`, setting a parameter's value to
`-3` is claimed to store `3` regardless of `ext_bounded`.  In the code the
absolute value is taken only inside the `ext_bounded is True` branch of
`_setvalue`, so with `ext_bounded=False` the assignment stores `-3` unchanged
(contradicting the class docstring of `ext_force_positive`), while with
`ext_bounded=True` it stores `3`. -/
theorem C1_force_positive_needs_ext_bounded :
    setvalueW (fun _ => none) (fun _ => false) 2
        { params := [{ ext_force_positive := true }] } 0 (.scalar (-3))
      = some (.stored { params := [{ ext_force_positive := true, value := .num (-3) }] } [])
    ∧ setvalueW (fun _ => none) (fun _ => false) 2
        { params := [{ ext_force_positive := true, ext_bounded := true }] } 0 (.scalar (-3))
      = some (.stored
          { params := [{ ext_force_positive := true, ext_bounded := true, value := .num 3 }] } []) := by
  constructor <;> decide

/-- Claim C3: on a multi-element parameter with `ext_bounded=True`, a missing
`bmin` is claimed to act as `-inf` while a set `bmax` still clips from above.
In the code both clip limits are gated on `self.bmin`: with `bmin=None` and
`bmax=10`, assigning `(15, 5)` stores `(15, 5)` unclipped, while the same
assignment with `bmin=0` stores `(10, 5)`. -/
theorem C3_upper_clip_gated_on_bmin :
    setvalueW (fun _ => none) (fun _ => false) 2
        { params := [{ number_of_elements := 2, value := .tup [0, 0],
                       ext_bounded := true, bmax := some 10 }] } 0 (.seq [15, 5])
      = some (.stored
          { params := [{ number_of_elements := 2, value := .tup [15, 5],
                         ext_bounded := true, bmax := some 10 }] } [])
    ∧ setvalueW (fun _ => none) (fun _ => false) 2
        { params := [{ number_of_elements := 2, value := .tup [0, 0],
                       ext_bounded := true, bmin := some 0, bmax := some 10 }] } 0
        (.seq [15, 5])
      = some (.stored
          { params := [{ number_of_elements := 2, value := .tup [10, 5],
                         ext_bounded := true, bmin := some 0, bmax := some 10 }] } []) := by
  constructor <;> decide

/-- Claim C5: with observers `[10, 11, 12]` registered and observer `10`
raising, a value change invokes `10` and `12` but never invokes `11` — the
list is mutated during iteration, so the observer immediately after the
removed one is skipped, although it stays registered.  Observer `10` is
permanently unregistered and the assignment completes without propagating the
exception, as the claim says; "all other registered observers are still
invoked" does not hold. -/
theorem C5_observer_after_failure_skipped :
    setvalueW (fun _ => none) (fun f => f == 10) 2
        { params := [{}], connected_functions := [10, 11, 12] } 0 (.scalar 5)
      = some (.stored
          { params := [{ value := .num 5 }], connected_functions := [11, 12] }
          [10, 12]) := by
  decide

/-- Claim C6, counterexample: a single-element parameter is claimed to reject
any input exposing a length attribute, but assigning the one-element sequence
`[5]` raises nothing — the value is accepted and stored as the tuple `(5,)`. -/
theorem C6_counterexample_length_one_seq_accepted :
    setvalueW (fun _ => none) (fun _ => false) 2 { params := [{}] } 0 (.seq [5])
      = some (.stored { params := [{ value := .tup [5] }] } []) := by
  decide

/-- Claim C9, counterexample: a perfectly flat histogram is claimed to yield
an empty list of typical values, but a single positive bin is flat (all its
counts are equal) and yields one typical value: its count exceeds the
prepended sentinel on the left and, wrapping around, the same sentinel on the
right. -/
theorem C9_counterexample_single_flat_bin :
    most_frequent_values [5] [0, 1] = some [(1 + 0) / 2]
    ∧ (some [((1 : ℚ) + 0) / 2] ≠ some ([] : List ℚ)) := by
  refine ⟨rfl, by simp⟩

/-- Claim C10: the claim says each `Parameter` instance owns an independent
observer container and twin-dependents container.  In the source both
`connected_functions` and `_twins` are class-level lists shared by every
instance: connecting observer `7` to the first of two freshly constructed
parameters makes it visible from the second, and twinning the first parameter
registers it in the `_twins` list the second parameter reads. -/
theorem C10_containers_shared_between_instances :
    readConnected wFresh 1 = some []
    ∧ (connectW wFresh 0 7 2).map (fun w => readConnected w 1) = some (some [7])
    ∧ read_twins wFresh 1 = some []
    ∧ (set_twinW (fun _ q => q) wFresh 0 (some 1)).map (fun r => read_twins r.1 1)
        = some (some [0]) := by
  refine ⟨by decide, by decide, by decide, by decide⟩

/-- Claim C6 (amended): assigning to an untwinned parameter raises the
length-mismatch `ValueError` — with every attribute left untouched, the
`raised` outcome carrying the world unchanged — exactly when the argument is
a sequence whose length differs from `number_of_elements` or a bare number on
a multi-element parameter.  In particular a single-element parameter accepts
a length-1 sequence (rather than rejecting every input with a length
attribute, as the claim stated). -/
theorem C6_length_mismatch_iff (tinv : ℕ → Option (ℚ → ℚ)) (raises : ℕ → Bool)
    (fuel : ℕ) (w : World) (i : ℕ) (p : Parameter)
    (hp : w.params.get? i = some p) (ht : p.twin = none) (arg : PyInput) :
    setvalueW tinv raises (fuel + 1) w i arg = some (.raised w)
      ↔ badLength p arg = true := by
  cases arg with
  | seq l =>
    simp only [setvalueW, hp, badLength, bne_iff_ne, ne_eq]
    by_cases h : l.length = p.number_of_elements
    · simp [h, ht]
    · simp [h]
  | scalar q =>
    simp only [setvalueW, hp, badLength, bne_iff_ne, ne_eq]
    by_cases h : p.number_of_elements = 1
    · simp [h, ht]
    · simp [h]

/-- Witness for C6: a badly sized assignment on a two-element parameter does
raise, with the world unchanged. -/
theorem C6_length_mismatch_iff_witness :
    setvalueW (fun _ => none) (fun _ => false) 1
        { params := [{ number_of_elements := 2, value := .tup [0, 0] }] } 0
        (.seq [1, 2, 3])
      = some (.raised { params := [{ number_of_elements := 2, value := .tup [0, 0] }] }) :=
  (C6_length_mismatch_iff (fun _ => none) (fun _ => false) 0
    { params := [{ number_of_elements := 2, value := .tup [0, 0] }] } 0
    { number_of_elements := 2, value := .tup [0, 0] } rfl rfl
    (.seq [1, 2, 3])).mpr (by decide)

end Hyperspy
